import Mathlib

/-!
Verification of the `cube` wireframe renderer (src/lib.rs, src/main.rs).

Rust `f32` values are modelled as real numbers; the `f32` remainder
operator `%` (truncated toward zero) and `f32::to_radians` are embedded
explicitly.  All definitions mirror the source code; the one spec-side
definition used for a refinement comparison (`specRotate`) is marked as
such.
-/

noncomputable section

open Real

/-- `mint::Point3<f32>`. -/
@[ext]
structure Point3 where
  x : ℝ
  y : ℝ
  z : ℝ

/-- `mint::Point2<f32>`. -/
@[ext]
structure Point2 where
  x : ℝ
  y : ℝ

/-- `CameraSettings` from src/lib.rs. -/
structure CameraSettings where
  fov_angle_deg : ℝ
  camera_dist : ℝ

/-- `CameraSettings::new(fov_angle_deg: u16, camera_dist: u16)`:
the two `u16` arguments are converted with `f32::from`. -/
def CameraSettings.new (fov_angle_deg camera_dist : ℕ) : CameraSettings :=
  { fov_angle_deg := fov_angle_deg, camera_dist := camera_dist }

/-- `Attitude` from src/lib.rs: yaw/pitch/roll angles in radians. -/
structure Attitude where
  yaw : ℝ
  pitch : ℝ
  roll : ℝ

/-- `Cube` from src/lib.rs: an array of 8 vertices. -/
structure Cube where
  vertices : List Point3

/-- `Cube::default()`: corners of the centered unit cube. -/
def Cube.default : Cube :=
  { vertices :=
      [⟨-1, -1, -1⟩, ⟨1, -1, -1⟩, ⟨1, 1, -1⟩, ⟨-1, 1, -1⟩,
       ⟨-1, -1, 1⟩, ⟨1, -1, 1⟩, ⟨1, 1, 1⟩, ⟨-1, 1, 1⟩] }

/-- The `multiply_matrix_point` closure in `get_rotated_point`:
a standard 3x3-matrix-by-3-vector multiply written out entrywise. -/
def multiply_matrix_point (matrix : Matrix (Fin 3) (Fin 3) ℝ)
    (point : ℝ × ℝ × ℝ) : ℝ × ℝ × ℝ :=
  (point.1 * matrix 0 0 + point.2.1 * matrix 0 1 + point.2.2 * matrix 0 2,
   point.1 * matrix 1 0 + point.2.1 * matrix 1 1 + point.2.2 * matrix 1 2,
   point.1 * matrix 2 0 + point.2.1 * matrix 2 1 + point.2.2 * matrix 2 2)

/-- `get_rotated_point` from src/lib.rs: build the yaw, pitch and roll
matrices and apply them to the point in the order roll, pitch, yaw. -/
def get_rotated_point (point : Point3) (attitude : Attitude) : Point3 :=
  let yaw_matrix : Matrix (Fin 3) (Fin 3) ℝ :=
    !![Real.cos attitude.yaw, -Real.sin attitude.yaw, 0;
       Real.sin attitude.yaw, Real.cos attitude.yaw, 0;
       0, 0, 1]
  let pitch_matrix : Matrix (Fin 3) (Fin 3) ℝ :=
    !![Real.cos attitude.pitch, 0, Real.sin attitude.pitch;
       0, 1, 0;
       -Real.sin attitude.pitch, 0, Real.cos attitude.pitch]
  let roll_matrix : Matrix (Fin 3) (Fin 3) ℝ :=
    !![1, 0, 0;
       0, Real.cos attitude.roll, -Real.sin attitude.roll;
       0, Real.sin attitude.roll, Real.cos attitude.roll]
  let p1 := multiply_matrix_point roll_matrix (point.x, point.y, point.z)
  let p2 := multiply_matrix_point pitch_matrix p1
  let p3 := multiply_matrix_point yaw_matrix p2
  ⟨p3.1, p3.2.1, p3.2.2⟩

/-- `project_3d_to_2d` from src/lib.rs.  `f32::to_radians` multiplies by
`π / 180`; the depth-zero guard falls back to `scale = 1`. -/
def project_3d_to_2d (point : Point3) (camera_settings : CameraSettings) :
    Point2 :=
  let fov_angle_rad := camera_settings.fov_angle_deg * (Real.pi / 180)
  let half_fov := fov_angle_rad / 2
  let half_fov_tan := Real.tan half_fov
  let depth := point.z + camera_settings.camera_dist
  let scale := if depth ≠ 0 then camera_settings.camera_dist / depth else 1
  let x_proj := point.x * scale / half_fov_tan
  let y_proj := point.y * scale / half_fov_tan
  ⟨x_proj, y_proj⟩

/-- The subset of `ggez` `KeyCode` values relevant here: the four arrow
keys handled by `update_cursor`, and representatives of the keys that
fall into its catch-all arm. -/
inductive KeyCode where
  | up
  | down
  | left
  | right
  | space
  | escape
  | keyA
  | keyReturn
deriving DecidableEq

/-- `CubeState` from src/lib.rs. -/
structure CubeState where
  camera_settings : CameraSettings
  cube : Cube
  cursor : Point2
  screen_width : ℝ
  screen_height : ℝ

/-- Truncation toward zero, as used by the Rust `f32` remainder. -/
def f32Trunc (x : ℝ) : ℤ :=
  if 0 ≤ x then ⌊x⌋ else ⌈x⌉

/-- Rust `%` on `f32`: the remainder `a - b * trunc(a / b)`, whose sign
follows the dividend. -/
def f32Rem (a b : ℝ) : ℝ :=
  a - b * f32Trunc (a / b)

/-- `CubeState::update_cursor` from src/lib.rs: arrow keys pick a step
`(dx, dy)`, any other key returns early; both cursor coordinates are
then updated modulo the viewport dimensions. -/
def CubeState.update_cursor (s : CubeState) (key : KeyCode) : CubeState :=
  match (match key with
    | .up => some ((0 : ℝ), (-10 : ℝ))
    | .down => some (0, 10)
    | .left => some (10, 0)
    | .right => some (-10, 0)
    | _ => none) with
  | none => s
  | some (dx, dy) =>
    { s with cursor :=
        ⟨f32Rem (s.cursor.x + dx + s.screen_width) s.screen_width,
         f32Rem (s.cursor.y + dy + s.screen_height) s.screen_height⟩ }

/-- The attitude computed at the start of `CubeState::draw`
(src/lib.rs): normalized cursor position scaled by `π`, mapped to pitch
(x axis) and roll (y axis), with yaw fixed at 0. -/
def CubeState.frameAttitude (s : CubeState) : Attitude :=
  let cursor_x_ratio := (s.cursor.x / s.screen_width) * Real.pi
  let cursor_y_ratio := (s.cursor.y / s.screen_height) * Real.pi
  { yaw := 0, pitch := cursor_x_ratio, roll := cursor_y_ratio }

/-- CLI validation in src/main.rs: `clap` parses each argument as a
`u16` and enforces `range(1..=10)` for `fov_angle_deg` and
`range(1..=1_000)` for `camera_dist`. -/
def acceptArgs (fov_angle_deg camera_dist : ℕ) : Bool :=
  (1 ≤ fov_angle_deg && fov_angle_deg ≤ 10) &&
    (1 ≤ camera_dist && camera_dist ≤ 1000)

/-- `main` in src/main.rs up to the construction of `CameraSettings`:
`CameraSettings::new` runs only when both arguments pass validation. -/
def mainCamera (fov_angle_deg camera_dist : ℕ) : Option CameraSettings :=
  if acceptArgs fov_angle_deg camera_dist then
    some (CameraSettings.new fov_angle_deg camera_dist)
  else
    none

/-- Spec-side rotation (apply the three elementary matrices to the point
in the fixed order roll, then pitch, then yaw, i.e.
`yaw_matrix * (pitch_matrix * (roll_matrix * point))`), stated with
Mathlib's matrix-vector product for comparison with the source. -/
def specRotate (point : Point3) (attitude : Attitude) : Point3 :=
  let yaw_matrix : Matrix (Fin 3) (Fin 3) ℝ :=
    !![Real.cos attitude.yaw, -Real.sin attitude.yaw, 0;
       Real.sin attitude.yaw, Real.cos attitude.yaw, 0;
       0, 0, 1]
  let pitch_matrix : Matrix (Fin 3) (Fin 3) ℝ :=
    !![Real.cos attitude.pitch, 0, Real.sin attitude.pitch;
       0, 1, 0;
       -Real.sin attitude.pitch, 0, Real.cos attitude.pitch]
  let roll_matrix : Matrix (Fin 3) (Fin 3) ℝ :=
    !![1, 0, 0;
       0, Real.cos attitude.roll, -Real.sin attitude.roll;
       0, Real.sin attitude.roll, Real.cos attitude.roll]
  let v := yaw_matrix.mulVec (pitch_matrix.mulVec
    (roll_matrix.mulVec ![point.x, point.y, point.z]))
  ⟨v 0, v 1, v 2⟩

/-! ### Helper lemmas about the `f32` remainder -/

theorem f32Rem_sub_int_mul (a b : ℝ) : ∃ k : ℤ, f32Rem a b = a - b * k :=
  ⟨f32Trunc (a / b), rfl⟩

theorem f32Rem_nonneg_lt {a b : ℝ} (ha : 0 ≤ a) (hb : 0 < b) :
    0 ≤ f32Rem a b ∧ f32Rem a b < b := by
  have hdiv : 0 ≤ a / b := div_nonneg ha hb.le
  have htr : f32Trunc (a / b) = ⌊a / b⌋ := if_pos hdiv
  have hne : b ≠ 0 := ne_of_gt hb
  have hfr : f32Rem a b = b * Int.fract (a / b) := by
    rw [f32Rem, htr, Int.fract]
    field_simp
  constructor
  · rw [hfr]
    exact mul_nonneg hb.le (Int.fract_nonneg _)
  · rw [hfr]
    calc b * Int.fract (a / b) < b * 1 :=
          (mul_lt_mul_left hb).mpr (Int.fract_lt_one _)
    _ = b := mul_one b

theorem f32Rem_lt_of_pos {a b : ℝ} (hb : 0 < b) :
    -b < f32Rem a b ∧ f32Rem a b < b := by
  by_cases hdiv : 0 ≤ a / b
  · have ha : 0 ≤ a := by
      by_contra hneg
      push_neg at hneg
      have : a / b < 0 := div_neg_of_neg_of_pos hneg hb
      linarith
    have h := f32Rem_nonneg_lt ha hb
    exact ⟨by linarith [h.1], h.2⟩
  · push_neg at hdiv
    have htr : f32Trunc (a / b) = ⌈a / b⌉ := if_neg (not_le.mpr hdiv)
    have hne : b ≠ 0 := ne_of_gt hb
    constructor
    · have hce : (⌈a / b⌉ : ℝ) < a / b + 1 := Int.ceil_lt_add_one _
      have : b * (⌈a / b⌉ : ℝ) < b * (a / b + 1) :=
        (mul_lt_mul_left hb).mpr hce
      rw [f32Rem, htr]
      have hab : b * (a / b) = a := by field_simp
      nlinarith
    · have hle : (a / b : ℝ) ≤ ⌈a / b⌉ := Int.le_ceil _
      have : b * (a / b) ≤ b * (⌈a / b⌉ : ℝ) :=
        (mul_le_mul_left hb).mpr hle
      rw [f32Rem, htr]
      have hab : b * (a / b) = a := by field_simp
      linarith

theorem f32Rem_add_self {y h : ℝ} (hy : 0 ≤ y) (hyh : y < h) :
    f32Rem (y + h) h = y := by
  have hh : 0 < h := lt_of_le_of_lt hy hyh
  have hne : h ≠ 0 := ne_of_gt hh
  have hdiv : (y + h) / h = y / h + 1 := by field_simp
  have h0 : 0 ≤ y / h := div_nonneg hy hh.le
  have h1 : y / h < 1 := (div_lt_one hh).mpr hyh
  have hfl : ⌊y / h⌋ = 0 := Int.floor_eq_zero_iff.mpr ⟨h0, h1⟩
  have htr : f32Trunc ((y + h) / h) = 1 := by
    rw [f32Trunc, if_pos (by rw [hdiv]; linarith), hdiv,
      Int.floor_add_one, hfl]
    omega
  rw [f32Rem, htr]
  push_cast
  ring

theorem rem_unique {x x' b : ℝ} (hx : 0 ≤ x) (hxb : x < b)
    (hx' : 0 ≤ x') (hx'b : x' < b) (k : ℤ) (heq : x' = x + b * k) :
    x' = x := by
  have hb : 0 < b := lt_of_le_of_lt hx hxb
  have h1 : b * k < b * 1 := by nlinarith
  have h2 : b * (-1) < b * k := by nlinarith
  have hk1 : (k : ℝ) < 1 := (mul_lt_mul_left hb).mp h1
  have hk2 : (-1 : ℝ) < k := (mul_lt_mul_left hb).mp h2
  have hk0 : k = 0 := by
    have hk1' : k < 1 := by exact_mod_cast hk1
    have hk2' : -1 < k := by exact_mod_cast hk2
    omega
  rw [heq, hk0]
  push_cast
  ring

/-! ### Claim theorems -/

/-- C1 (counterexample): the CLI does not accept the full range
`1..=180` for `fov_angle_deg`: the value 11 lies in that range but is
rejected by the `range(1..=10)` validator. -/
theorem cli_rejects_fov_in_claimed_range :
    (1 ≤ 11 ∧ 11 ≤ 180) ∧ acceptArgs 11 256 = false := by
  decide

/-- C1 (amended): the host CLI validates and accepts `fov_angle_deg`
over the integer range `1..=10` and `camera_dist` over `1..=1000`;
every integer pair inside those ranges is accepted and
`CameraSettings::new` is called exactly on accepted pairs. -/
theorem cli_validation_bounds (fov cd : ℕ) :
    (acceptArgs fov cd = true ↔
        (1 ≤ fov ∧ fov ≤ 10) ∧ 1 ≤ cd ∧ cd ≤ 1000) ∧
      (acceptArgs fov cd = true →
        mainCamera fov cd = some (CameraSettings.new fov cd)) ∧
      (acceptArgs fov cd = false → mainCamera fov cd = none) := by
  refine ⟨?_, ?_, ?_⟩
  · simp [acceptArgs]
  · intro h
    rw [mainCamera, if_pos h]
  · intro h
    rw [mainCamera, if_neg (by simp [h])]

/-- C1 witness: the in-range pair `(5, 256)` is accepted and reaches
`CameraSettings::new`. -/
theorem cli_validation_bounds_witness :
    mainCamera 5 256 = some (CameraSettings.new 5 256) :=
  (cli_validation_bounds 5 256).2.1 (by decide)

/-- C2: `get_rotated_point` equals the composition
`yaw_matrix * (pitch_matrix * (roll_matrix * point))` of the three
elementary rotation matrices, and at pitch = yaw = π/2, roll = 0 the
point (1,0,0) maps to (0,0,-1). -/
theorem rotation_is_spec_matrix_composition :
    (∀ (p : Point3) (a : Attitude),
        get_rotated_point p a = specRotate p a) ∧
      get_rotated_point ⟨1, 0, 0⟩ ⟨Real.pi / 2, Real.pi / 2, 0⟩ =
        ⟨0, 0, -1⟩ := by
  constructor
  · intro p a
    simp [get_rotated_point, specRotate, multiply_matrix_point,
      Matrix.mulVec, Matrix.dotProduct, Fin.sum_univ_three]
    norm_num [Matrix.cons_val_zero, Matrix.cons_val_one,
      Matrix.cons_val_two, Matrix.head_cons, Matrix.vecTail]
    ring_nf
    exact ⟨trivial, trivial, trivial⟩
  · ext <;> simp [get_rotated_point, multiply_matrix_point,
      Matrix.vecHead, Matrix.vecTail, Function.comp]

/-- C3: whenever the depth `point.z + camera_dist` is nonzero,
`project_3d_to_2d` returns
`(point.x * scale / half_fov_tan, point.y * scale / half_fov_tan)` with
`scale = camera_dist / depth` and
`half_fov_tan = tan(radians(fov_angle_deg) / 2)`; with FOV 90 and
camera distance 10, (5,3,0) projects to (5,3) and (5,3,10) to
(2.5, 1.5). -/
theorem projection_formula_and_examples :
    (∀ (p : Point3) (c : CameraSettings), p.z + c.camera_dist ≠ 0 →
        project_3d_to_2d p c =
          ⟨p.x * (c.camera_dist / (p.z + c.camera_dist)) /
             Real.tan (c.fov_angle_deg * (Real.pi / 180) / 2),
           p.y * (c.camera_dist / (p.z + c.camera_dist)) /
             Real.tan (c.fov_angle_deg * (Real.pi / 180) / 2)⟩) ∧
      project_3d_to_2d ⟨5, 3, 0⟩ (CameraSettings.new 90 10) = ⟨5, 3⟩ ∧
      project_3d_to_2d ⟨5, 3, 10⟩ (CameraSettings.new 90 10) =
        ⟨5 / 2, 3 / 2⟩ := by
  have ht : Real.tan ((90 : ℝ) * (Real.pi / 180) / 2) = 1 := by
    have harg : (90 : ℝ) * (Real.pi / 180) / 2 = Real.pi / 4 := by ring
    rw [harg, Real.tan_pi_div_four]
  refine ⟨?_, ?_, ?_⟩
  · intro p c h
    simp [project_3d_to_2d, h]
  · ext <;> simp [project_3d_to_2d, CameraSettings.new, ht]
  · ext <;> simp [project_3d_to_2d, CameraSettings.new, ht] <;> norm_num

/-- C3 witness: the point (1,2,3) with FOV 90 and camera distance 10
has nonzero depth and satisfies the projection formula. -/
theorem projection_formula_and_examples_witness :
    project_3d_to_2d ⟨1, 2, 3⟩ (CameraSettings.new 90 10) =
      ⟨1 * ((CameraSettings.new 90 10).camera_dist /
           (3 + (CameraSettings.new 90 10).camera_dist)) /
         Real.tan ((CameraSettings.new 90 10).fov_angle_deg *
           (Real.pi / 180) / 2),
       2 * ((CameraSettings.new 90 10).camera_dist /
           (3 + (CameraSettings.new 90 10).camera_dist)) /
         Real.tan ((CameraSettings.new 90 10).fov_angle_deg *
           (Real.pi / 180) / 2)⟩ :=
  projection_formula_and_examples.1 ⟨1, 2, 3⟩ (CameraSettings.new 90 10)
    (by norm_num [CameraSettings.new])

/-- C4: when `point.z = -camera_dist` (depth exactly zero) the guard in
`project_3d_to_2d` makes the scale exactly 1, so the result is the
finite value `(point.x / half_fov_tan, point.y / half_fov_tan)` and the
depth division is never performed. -/
theorem projection_depth_zero_guard (p : Point3) (c : CameraSettings)
    (h : p.z = -c.camera_dist) :
    project_3d_to_2d p c =
      ⟨p.x / Real.tan (c.fov_angle_deg * (Real.pi / 180) / 2),
       p.y / Real.tan (c.fov_angle_deg * (Real.pi / 180) / 2)⟩ := by
  simp [project_3d_to_2d, h]

/-- C4 witness: the point (1,1,-10) lies exactly in the camera plane of
the FOV-90, distance-10 camera and falls back to scale 1. -/
theorem projection_depth_zero_guard_witness :
    project_3d_to_2d ⟨1, 1, -10⟩ (CameraSettings.new 90 10) =
      ⟨1 / Real.tan ((CameraSettings.new 90 10).fov_angle_deg *
         (Real.pi / 180) / 2),
       1 / Real.tan ((CameraSettings.new 90 10).fov_angle_deg *
         (Real.pi / 180) / 2)⟩ :=
  projection_depth_zero_guard ⟨1, 1, -10⟩ (CameraSettings.new 90 10)
    (by norm_num [CameraSettings.new])

/-- C5: the per-frame attitude is
`(yaw, pitch, roll) = (0, (cursor.x / width) * π, (cursor.y / height) * π)`;
for a cursor inside the viewport the pitch and roll lie in `[0, π]`,
and the yaw is always exactly 0. -/
theorem draw_attitude_mapping (s : CubeState) :
    s.frameAttitude =
        ⟨0, (s.cursor.x / s.screen_width) * Real.pi,
          (s.cursor.y / s.screen_height) * Real.pi⟩ ∧
      (0 < s.screen_width → 0 ≤ s.cursor.x →
        s.cursor.x ≤ s.screen_width →
        0 ≤ s.frameAttitude.pitch ∧ s.frameAttitude.pitch ≤ Real.pi) ∧
      (0 < s.screen_height → 0 ≤ s.cursor.y →
        s.cursor.y ≤ s.screen_height →
        0 ≤ s.frameAttitude.roll ∧ s.frameAttitude.roll ≤ Real.pi) ∧
      s.frameAttitude.yaw = 0 := by
  refine ⟨rfl, ?_, ?_, rfl⟩
  · intro hw hx hxw
    have hr0 : 0 ≤ s.cursor.x / s.screen_width :=
      div_nonneg hx hw.le
    have hr1 : s.cursor.x / s.screen_width ≤ 1 :=
      (div_le_one hw).mpr hxw
    have hpi := Real.pi_pos
    constructor
    · exact mul_nonneg hr0 hpi.le
    · show (s.cursor.x / s.screen_width) * Real.pi ≤ Real.pi
      nlinarith
  · intro hh hy hyh
    have hr0 : 0 ≤ s.cursor.y / s.screen_height :=
      div_nonneg hy hh.le
    have hr1 : s.cursor.y / s.screen_height ≤ 1 :=
      (div_le_one hh).mpr hyh
    have hpi := Real.pi_pos
    constructor
    · exact mul_nonneg hr0 hpi.le
    · show (s.cursor.y / s.screen_height) * Real.pi ≤ Real.pi
      nlinarith

/-- C5 witness: at cursor (400, 300) in an 800x600 viewport the frame
pitch lies in `[0, π]`. -/
theorem draw_attitude_mapping_witness :
    0 ≤ (CubeState.frameAttitude
        ⟨CameraSettings.new 90 10, Cube.default, ⟨400, 300⟩,
          800, 600⟩).pitch ∧
      (CubeState.frameAttitude
        ⟨CameraSettings.new 90 10, Cube.default, ⟨400, 300⟩,
          800, 600⟩).pitch ≤ Real.pi :=
  (draw_attitude_mapping
      ⟨CameraSettings.new 90 10, Cube.default, ⟨400, 300⟩,
        800, 600⟩).2.1
    (by norm_num) (by norm_num) (by norm_num)

/-- C6: rotating any point by the zero attitude is the identity. -/
theorem rotation_zero_attitude_identity (p : Point3) :
    get_rotated_point p ⟨0, 0, 0⟩ = p := by
  ext <;> simp [get_rotated_point, multiply_matrix_point,
    Matrix.vecHead, Matrix.vecTail, Function.comp]

/-- C7: for a viewport at least 10 units wide and tall and a cursor
inside `[0, width) x [0, height)`, `update_cursor` keeps the cursor in
`[0, width) x [0, height)` for every key. -/
theorem update_cursor_stays_in_viewport (s : CubeState) (key : KeyCode)
    (hw : 10 ≤ s.screen_width) (hh : 10 ≤ s.screen_height)
    (hx : 0 ≤ s.cursor.x) (hxw : s.cursor.x < s.screen_width)
    (hy : 0 ≤ s.cursor.y) (hyh : s.cursor.y < s.screen_height) :
    0 ≤ (s.update_cursor key).cursor.x ∧
      (s.update_cursor key).cursor.x < s.screen_width ∧
      0 ≤ (s.update_cursor key).cursor.y ∧
      (s.update_cursor key).cursor.y < s.screen_height := by
  have hw0 : (0 : ℝ) < s.screen_width := by linarith
  have hh0 : (0 : ℝ) < s.screen_height := by linarith
  cases key with
  | up =>
    have hx' := f32Rem_nonneg_lt (a := s.cursor.x + 0 + s.screen_width)
      (by linarith) hw0
    have hy' := f32Rem_nonneg_lt
      (a := s.cursor.y + -10 + s.screen_height) (by linarith) hh0
    exact ⟨hx'.1, hx'.2, hy'.1, hy'.2⟩
  | down =>
    have hx' := f32Rem_nonneg_lt (a := s.cursor.x + 0 + s.screen_width)
      (by linarith) hw0
    have hy' := f32Rem_nonneg_lt
      (a := s.cursor.y + 10 + s.screen_height) (by linarith) hh0
    exact ⟨hx'.1, hx'.2, hy'.1, hy'.2⟩
  | left =>
    have hx' := f32Rem_nonneg_lt
      (a := s.cursor.x + 10 + s.screen_width) (by linarith) hw0
    have hy' := f32Rem_nonneg_lt
      (a := s.cursor.y + 0 + s.screen_height) (by linarith) hh0
    exact ⟨hx'.1, hx'.2, hy'.1, hy'.2⟩
  | right =>
    have hx' := f32Rem_nonneg_lt
      (a := s.cursor.x + -10 + s.screen_width) (by linarith) hw0
    have hy' := f32Rem_nonneg_lt
      (a := s.cursor.y + 0 + s.screen_height) (by linarith) hh0
    exact ⟨hx'.1, hx'.2, hy'.1, hy'.2⟩
  | space => exact ⟨hx, hxw, hy, hyh⟩
  | escape => exact ⟨hx, hxw, hy, hyh⟩
  | keyA => exact ⟨hx, hxw, hy, hyh⟩
  | keyReturn => exact ⟨hx, hxw, hy, hyh⟩

/-- C7 witness: the cursor (400, 300) of an 800x600 viewport stays in
the viewport after pressing Up. -/
theorem update_cursor_stays_in_viewport_witness :
    0 ≤ (CubeState.update_cursor
        ⟨CameraSettings.new 90 10, Cube.default, ⟨400, 300⟩,
          800, 600⟩ .up).cursor.x ∧
      (CubeState.update_cursor
        ⟨CameraSettings.new 90 10, Cube.default, ⟨400, 300⟩,
          800, 600⟩ .up).cursor.x < 800 ∧
      0 ≤ (CubeState.update_cursor
        ⟨CameraSettings.new 90 10, Cube.default, ⟨400, 300⟩,
          800, 600⟩ .up).cursor.y ∧
      (CubeState.update_cursor
        ⟨CameraSettings.new 90 10, Cube.default, ⟨400, 300⟩,
          800, 600⟩ .up).cursor.y < 600 :=
  update_cursor_stays_in_viewport
    ⟨CameraSettings.new 90 10, Cube.default, ⟨400, 300⟩, 800, 600⟩ .up
    (by norm_num) (by norm_num) (by norm_num) (by norm_num)
    (by norm_num) (by norm_num)

/-- C8: for an in-bounds cursor, pressing Right then Left restores
`cursor.x` exactly (hence modulo the width) and leaves `cursor.y`
unchanged. -/
theorem update_cursor_right_left_round_trip (s : CubeState)
    (hx : 0 ≤ s.cursor.x) (hxw : s.cursor.x < s.screen_width)
    (hy : 0 ≤ s.cursor.y) (hyh : s.cursor.y < s.screen_height) :
    ((s.update_cursor .right).update_cursor .left).cursor.x =
        s.cursor.x ∧
      ((s.update_cursor .right).update_cursor .left).cursor.y =
        s.cursor.y := by
  have hw0 : (0 : ℝ) < s.screen_width := lt_of_le_of_lt hx hxw
  have hh0 : (0 : ℝ) < s.screen_height := lt_of_le_of_lt hy hyh
  set w := s.screen_width with hwdef
  set h := s.screen_height with hhdef
  set x := s.cursor.x with hxdef
  set y := s.cursor.y with hydef
  have hy1 : f32Rem (y + 0 + h) h = y := by
    rw [add_zero]
    exact f32Rem_add_self hy hyh
  constructor
  · show f32Rem (f32Rem (x + -10 + w) w + 10 + w) w = x
    set x1 := f32Rem (x + -10 + w) w with hx1def
    have hb1 := f32Rem_lt_of_pos (a := x + -10 + w) hw0
    have hpos : 0 ≤ x1 + 10 + w := by
      have := hb1.1
      rw [← hx1def] at this
      linarith
    have hb2 := f32Rem_nonneg_lt hpos hw0
    obtain ⟨k1, hk1⟩ := f32Rem_sub_int_mul (x + -10 + w) w
    obtain ⟨k2, hk2⟩ := f32Rem_sub_int_mul (x1 + 10 + w) w
    have heq : f32Rem (x1 + 10 + w) w =
        x + w * ((2 - k1 - k2 : ℤ) : ℝ) := by
      rw [hk2, hx1def, hk1]
      push_cast
      ring
    exact rem_unique hx hxw hb2.1 hb2.2 (2 - k1 - k2) heq
  · show f32Rem (f32Rem (y + 0 + h) h + 0 + h) h = y
    rw [hy1, add_zero]
    exact f32Rem_add_self hy hyh

/-- C8 witness: from cursor (400, 300) in an 800x600 viewport, Right
then Left restores (400, 300). -/
theorem update_cursor_right_left_round_trip_witness :
    ((CubeState.update_cursor
          ⟨CameraSettings.new 90 10, Cube.default, ⟨400, 300⟩,
            800, 600⟩ .right).update_cursor .left).cursor.x = 400 ∧
      ((CubeState.update_cursor
          ⟨CameraSettings.new 90 10, Cube.default, ⟨400, 300⟩,
            800, 600⟩ .right).update_cursor .left).cursor.y = 300 :=
  update_cursor_right_left_round_trip
    ⟨CameraSettings.new 90 10, Cube.default, ⟨400, 300⟩, 800, 600⟩
    (by norm_num) (by norm_num) (by norm_num) (by norm_num)

/-- C9: any key other than the four arrows leaves the whole
`CubeState` unchanged: the match's catch-all arm returns before any
field is written. -/
theorem update_cursor_unrecognized_noop (s : CubeState) (key : KeyCode)
    (h1 : key ≠ .up) (h2 : key ≠ .down) (h3 : key ≠ .left)
    (h4 : key ≠ .right) :
    s.update_cursor key = s := by
  cases key with
  | up => exact absurd rfl h1
  | down => exact absurd rfl h2
  | left => exact absurd rfl h3
  | right => exact absurd rfl h4
  | space => rfl
  | escape => rfl
  | keyA => rfl
  | keyReturn => rfl

/-- C9 witness: pressing Space leaves a concrete state unchanged. -/
theorem update_cursor_unrecognized_noop_witness :
    CubeState.update_cursor
        ⟨CameraSettings.new 90 10, Cube.default, ⟨400, 300⟩,
          800, 600⟩ .space =
      ⟨CameraSettings.new 90 10, Cube.default, ⟨400, 300⟩, 800, 600⟩ :=
  update_cursor_unrecognized_noop
    ⟨CameraSettings.new 90 10, Cube.default, ⟨400, 300⟩, 800, 600⟩
    .space (by decide) (by decide) (by decide) (by decide)

/-- C10: Left adds 10 to `cursor.x` and Right subtracts 10 from it,
modulo the width; Up subtracts 10 from `cursor.y` and Down adds 10 to
it, modulo the height (all via the Rust `f32` remainder of
`value + step + dimension` by the dimension). -/
theorem update_cursor_step_directions (s : CubeState) :
    (s.update_cursor .left).cursor.x =
        f32Rem (s.cursor.x + 10 + s.screen_width) s.screen_width ∧
      (s.update_cursor .right).cursor.x =
        f32Rem (s.cursor.x - 10 + s.screen_width) s.screen_width ∧
      (s.update_cursor .up).cursor.y =
        f32Rem (s.cursor.y - 10 + s.screen_height) s.screen_height ∧
      (s.update_cursor .down).cursor.y =
        f32Rem (s.cursor.y + 10 + s.screen_height) s.screen_height := by
  refine ⟨rfl, ?_, ?_, rfl⟩ <;>
    simp [CubeState.update_cursor, sub_eq_add_neg]

end
